import Mathlib

/-
Verification development for the nsim node-graph editor.

The editor's own logic lives in src/nodes.rs (the `EditorViewer` impl of
`SnarlViewer<EditorNode>`): the connect rule, the pin-compatibility masks,
the dropped-wire menus and the node context menu. The underlying graph
store `Snarl` comes from the external egui-snarl crate, whose source is not
part of the repository; its operations are modelled from the specification
of the Graph Store (spec sections 3 and 4.1).

Machine details: node identifiers are natural numbers; the `f64` payload of
a `Number` node is carried opaquely (no arithmetic is performed on it by any
modelled operation), represented by its 64-bit pattern as a `Nat`.
-/

/-- Bit pattern of an `f64` payload, carried opaquely. -/
abbrev F64Bits := Nat

/-- Node types for the editor graph (src/nodes.rs, `enum EditorNode`). -/
inductive EditorNode where
  /-- Displays the value of the connected input. -/
  | Sink
  /-- Outputs a number value (editable via drag). -/
  | Number (value : F64Bits)
  /-- Outputs a string value (editable via text input). -/
  | String (value : String)
deriving DecidableEq

/-- Identifier of an output pin: node id plus output port index. -/
structure OutPinId where
  node : Nat
  output : Nat
deriving DecidableEq

/-- Identifier of an input pin: node id plus input port index. -/
structure InPinId where
  node : Nat
  input : Nat
deriving DecidableEq

/-- Directed connection from an output pin to an input pin. -/
structure Wire where
  out : OutPinId
  inp : InPinId
deriving DecidableEq

/-- Modelled from the spec: the Graph Store (`Snarl<EditorNode>` of the
external egui-snarl crate, not under src/). It owns the node table
(id to node mapping), the connection set, and the fresh-id counter used to
assign stable, monotonically increasing identifiers on insertion. -/
structure Snarl where
  nodes : List (Nat × EditorNode)
  wires : List Wire
  nextId : Nat
deriving DecidableEq

/-- Modelled from the spec: `get(id)` lookup in the Graph Store; `none`
models the `NotFound` condition. -/
def Snarl.getNode (s : Snarl) (id : Nat) : Option EditorNode :=
  (s.nodes.find? (fun p => p.1 == id)).map (fun p => p.2)

/-- Modelled from the spec: `insert_node(payload) -> NodeId` always succeeds
and returns a fresh identifier, assigned monotonically. Returns the new id
with the updated store. -/
def Snarl.insertNode (s : Snarl) (node : EditorNode) : Nat × Snarl :=
  (s.nextId, ⟨s.nodes ++ [(s.nextId, node)], s.wires, s.nextId + 1⟩)

/-- Modelled from the spec: `remove_node(id)` removes the node and every
connection with an endpoint on that node. -/
def Snarl.removeNode (s : Snarl) (id : Nat) : Snarl :=
  ⟨s.nodes.filter (fun p => p.1 != id),
   s.wires.filter (fun w => w.out.node != id && w.inp.node != id),
   s.nextId⟩

/-- Modelled from the spec: the raw connection-insertion of the Graph Store
(`Snarl::connect`): inserts the wire into the connection set (pair
uniqueness holds, so inserting an existing pair is a no-op). The
single-input-connection policy is NOT applied here; it is enforced by the
caller, `EditorViewer::connect`. -/
def Snarl.connect (s : Snarl) (o : OutPinId) (i : InPinId) : Snarl :=
  if s.wires.contains ⟨o, i⟩ then s
  else ⟨s.nodes, s.wires ++ [⟨o, i⟩], s.nextId⟩

/-- Modelled from the spec: `disconnect(output_pin, input_pin)` removes the
exact connection if present; no-op if absent. -/
def Snarl.disconnect (s : Snarl) (o : OutPinId) (i : InPinId) : Snarl :=
  ⟨s.nodes, s.wires.filter (fun w => w != ⟨o, i⟩), s.nextId⟩

/-- Modelled from the spec: `drop_inputs` (used by the dropped-wire menu)
removes every connection into the given input pin. -/
def Snarl.dropInputs (s : Snarl) (i : InPinId) : Snarl :=
  ⟨s.nodes, s.wires.filter (fun w => w.inp != i), s.nextId⟩

/-- Modelled from the spec: `connections_into(input_pin)`, the connections
whose destination is the given input pin. -/
def connectionsInto (s : Snarl) (i : InPinId) : List Wire :=
  s.wires.filter (fun w => w.inp == i)

/-- Input pin count per node variant (src/nodes.rs, `EditorViewer::inputs`). -/
def EditorViewer.inputs : EditorNode → Nat
  | .Sink => 1
  | .Number _ => 0
  | .String _ => 0

/-- Output pin count per node variant (src/nodes.rs, `EditorViewer::outputs`). -/
def EditorViewer.outputs : EditorNode → Nat
  | .Sink => 0
  | .Number _ => 1
  | .String _ => 1

/-- Pin compatibility flag NUMBER (src/nodes.rs, `PIN_NUM`). -/
def PIN_NUM : Nat := 1

/-- Pin compatibility flag STRING (src/nodes.rs, `PIN_STR`). -/
def PIN_STR : Nat := 2

/-- Sink accepts both flags (src/nodes.rs, `PIN_SINK = PIN_NUM | PIN_STR`). -/
def PIN_SINK : Nat := PIN_NUM ||| PIN_STR

/-- Output-pin compatibility mask (src/nodes.rs, `pin_out_compat`). -/
def pin_out_compat : EditorNode → Nat
  | .Sink => 0
  | .Number _ => PIN_NUM
  | .String _ => PIN_STR

/-- Input-pin compatibility mask (src/nodes.rs, `pin_in_compat`). -/
def pin_in_compat : EditorNode → Nat
  | .Sink => PIN_SINK
  | .Number _ => 0
  | .String _ => 0

/-- Observable outcome of a call to `EditorViewer::connect`:
`panicSinkNoOutputs` is the `unreachable!("Sink node has no outputs")`
branch, `panicMissingNode` models the indexing panic `snarl[id]` on an
absent node, `connected` is the branch that rewires, `ignored` is the
silent no-op branch for destinations without inputs. -/
inductive ConnectOutcome where
  | panicSinkNoOutputs
  | panicMissingNode
  | connected
  | ignored
deriving DecidableEq

/-- Connect handler of the editor (src/nodes.rs, `EditorViewer::connect`):
matches on the two endpoint nodes; for a Number/String output into a Sink
input it first disconnects every existing remote of the input (single
connection only) and then inserts the new wire. The `remotes` slice handed
to the handler by the widget is the current set of connections into the
destination pin. -/
def EditorViewer.connect (fromP : OutPinId) (toP : InPinId) (s : Snarl) :
    ConnectOutcome × Snarl :=
  match s.getNode fromP.node, s.getNode toP.node with
  | some srcNode, some dstNode =>
    match srcNode, dstNode with
    | .Sink, _ => (.panicSinkNoOutputs, s)
    | _, .Sink =>
      let remotes := (connectionsInto s toP).map (fun w => w.out)
      let s1 := remotes.foldl (fun acc r => acc.disconnect r toP) s
      (.connected, s1.connect fromP toP)
    | _, _ => (.ignored, s)
  | _, _ => (.panicMissingNode, s)

/-- Observable outcome of the dropped-wire menu for a drag from output pins
(src/nodes.rs, `show_dropped_wire_menu`, `AnyPins::Out` arm): `noPins` is
the silent early return when the pin list is empty; `unsupportedMessage` is
the inline label shown when several output pins are dragged at once;
`panicMissingNode` models the `expect("source node should exist")` panic;
`shown b` means the menu was rendered, with the Sink entry offered iff `b`. -/
inductive OutMenuOutcome where
  | noPins
  | unsupportedMessage
  | panicMissingNode
  | shown (sinkOffered : Bool)
deriving DecidableEq

/-- Dropped-wire menu for a drag from output pins (src/nodes.rs,
`show_dropped_wire_menu`, `AnyPins::Out` arm). `clickSink` records whether
the user clicks the Sink entry (clicking is only possible when the entry is
rendered, which the guard `src_out_ty & PIN_SINK != 0` controls). On a
click the controller inserts a Sink node and connects the dragged output to
its input pin 0 before returning. -/
def showDroppedWireMenuOut (pins : List OutPinId) (clickSink : Bool)
    (s : Snarl) : OutMenuOutcome × Snarl :=
  match pins with
  | [] => (.noPins, s)
  | srcPin :: rest =>
    if rest ≠ [] then (.unsupportedMessage, s)
    else
      match s.getNode srcPin.node with
      | none => (.panicMissingNode, s)
      | some srcNode =>
        if pin_out_compat srcNode &&& PIN_SINK ≠ 0 then
          if clickSink then
            let r := s.insertNode .Sink
            (.shown true, r.2.connect srcPin ⟨r.1, 0⟩)
          else (.shown true, s)
        else (.shown false, s)

/-- Menu entry of the dropped-wire menu for a drag from input pins: the two
candidate source nodes (src/nodes.rs, `dst_out_candidates`). -/
inductive SourceChoice where
  | number
  | string
deriving DecidableEq

/-- Output mask of a candidate entry (the `out_ty` column of
`dst_out_candidates` in src/nodes.rs). -/
def SourceChoice.mask : SourceChoice → Nat
  | .number => PIN_NUM
  | .string => PIN_STR

/-- Node template of a candidate entry (the node column of
`dst_out_candidates` in src/nodes.rs): `Number(0.0)` or `String::new()`. -/
def SourceChoice.template : SourceChoice → EditorNode
  | .number => .Number 0
  | .string => .String default

/-- Union of the input masks of the dragged pins (src/nodes.rs, the
`all_src_types` fold in `show_dropped_wire_menu`); `none` models the
`expect("source node should exist")` panic. -/
def allSrcTypes (s : Snarl) : Nat → List InPinId → Option Nat
  | acc, [] => some acc
  | acc, p :: ps =>
    match s.getNode p.node with
    | some n => allSrcTypes s (acc ||| pin_in_compat n) ps
    | none => none

/-- Reconnection loop run after a menu selection (src/nodes.rs, the
`for src_pin in src_pins` loop): every dragged input pin whose own mask
intersects the chosen output mask has its existing inputs dropped and is
connected to the new output; other pins are skipped. `none` models the
`expect("source node should exist")` panic. -/
def reconnectLoop (dstPin : OutPinId) (outTy : Nat) :
    List InPinId → Snarl → Option Snarl
  | [], s => some s
  | p :: ps, s =>
    match s.getNode p.node with
    | none => none
    | some n =>
      if pin_in_compat n &&& outTy ≠ 0 then
        reconnectLoop dstPin outTy ps ((s.dropInputs p).connect dstPin p)
      else
        reconnectLoop dstPin outTy ps s

/-- Observable outcome of the dropped-wire menu for a drag from input pins:
`panicMissingNode` models the `expect` panics, `shown numOff strOff`
records which entries were rendered. -/
inductive InMenuOutcome where
  | panicMissingNode
  | shown (numberOffered stringOffered : Bool)
deriving DecidableEq

/-- Dropped-wire menu for a drag from input pins (src/nodes.rs,
`show_dropped_wire_menu`, `AnyPins::In` arm). `click` records which entry
(if any) the user clicks; an entry can only be clicked when rendered, which
the guard `all_src_types & out_ty != 0` controls. On a click the controller
inserts the chosen source node and runs the reconnection loop over the
dragged pins before returning. -/
def showDroppedWireMenuIn (pins : List InPinId) (click : Option SourceChoice)
    (s : Snarl) : InMenuOutcome × Snarl :=
  match allSrcTypes s 0 pins with
  | none => (.panicMissingNode, s)
  | some types =>
    let numOff := decide (types &&& PIN_NUM ≠ 0)
    let strOff := decide (types &&& PIN_STR ≠ 0)
    match click with
    | none => (.shown numOff strOff, s)
    | some c =>
      if types &&& c.mask ≠ 0 then
        let r := s.insertNode c.template
        match reconnectLoop ⟨r.1, 0⟩ c.mask pins r.2 with
        | some s2 => (.shown numOff strOff, s2)
        | none => (.panicMissingNode, s)
      else (.shown numOff strOff, s)

/-- Node context menu (src/nodes.rs, `show_node_menu`): its single action
Remove delegates to the Graph Store `remove_node`. -/
def showNodeMenu (node : Nat) (clickRemove : Bool) (s : Snarl) : Snarl :=
  if clickRemove then s.removeNode node else s

/-- Modelled from the spec: the structured values of the persistence
collaborator's format (serde data model restricted to what the graph
needs): integers, text, and heterogeneous sequences. -/
inductive SValue where
  | vnat (n : Nat)
  | vstr (s : String)
  | vlist (xs : List SValue)

/-- Modelled from the spec: serde-derived serialization of `EditorNode`
(the repository only declares `derive(Serialize, Deserialize)`); each
variant is encoded as its tag together with its payload value. -/
def encodeNode : EditorNode → SValue
  | .Sink => .vlist [.vnat 0]
  | .Number v => .vlist [.vnat 1, .vnat v]
  | .String v => .vlist [.vnat 2, .vstr v]

/-- Modelled from the spec: deserialization of a single node, inverse of
`encodeNode`; malformed input is rejected. -/
def decodeNode : SValue → Option EditorNode
  | .vlist [.vnat 0] => some .Sink
  | .vlist [.vnat 1, .vnat v] => some (.Number v)
  | .vlist [.vnat 2, .vstr v] => some (.String v)
  | _ => none

/-- Serialization of one wire: the four endpoint coordinates. -/
def encodeWire (w : Wire) : SValue :=
  .vlist [.vnat w.out.node, .vnat w.out.output, .vnat w.inp.node,
          .vnat w.inp.input]

/-- Deserialization of one wire, inverse of `encodeWire`. -/
def decodeWire : SValue → Option Wire
  | .vlist [.vnat a, .vnat b, .vnat c, .vnat d] => some ⟨⟨a, b⟩, ⟨c, d⟩⟩
  | _ => none

/-- Modelled from the spec: serialization of the whole graph, preserving
node identifiers, node variant plus payload value, and the full connection
set (spec section 6, persistence collaborator). -/
def encodeSnarl (s : Snarl) : SValue :=
  .vlist [
    .vlist (s.nodes.map (fun p => .vlist [.vnat p.1, encodeNode p.2])),
    .vlist (s.wires.map encodeWire),
    .vnat s.nextId]

/-- Deserialization of one node-table entry. -/
def decodeEntry : SValue → Option (Nat × EditorNode)
  | .vlist [.vnat id, v] => (decodeNode v).map (fun n => (id, n))
  | _ => none

/-- Modelled from the spec: deserialization of the whole graph, inverse of
`encodeSnarl`. -/
def decodeSnarl : SValue → Option Snarl
  | .vlist [.vlist nodeVals, .vlist wireVals, .vnat nid] => do
    let nodes ← nodeVals.mapM decodeEntry
    let wires ← wireVals.mapM decodeWire
    some ⟨nodes, wires, nid⟩
  | _ => none

/-- Tags of the value-kind bitset described by the spec (spec section 4.2):
NUMBER and STRING. -/
inductive Tag where
  | NUMBER
  | STRING
deriving DecidableEq

/-- Spec-side compatibility table, written from the spec's words: an output
pin's compatibility mask is {NUMBER} for NumberSource, {STRING} for
StringSource, empty for Sink. -/
def specOutMask : EditorNode → Finset Tag
  | .Sink => ∅
  | .Number _ => {Tag.NUMBER}
  | .String _ => {Tag.STRING}

/-- Spec-side compatibility table, written from the spec's words: an input
pin's mask is {NUMBER, STRING} for Sink, empty otherwise. -/
def specInMask : EditorNode → Finset Tag
  | .Sink => {Tag.NUMBER, Tag.STRING}
  | .Number _ => ∅
  | .String _ => ∅

/-- Bit encoding of a spec-side tag set, identifying it with the code's
`PinCompat` bitmask. -/
def maskBits (t : Finset Tag) : Nat :=
  (if Tag.NUMBER ∈ t then PIN_NUM else 0) +
  (if Tag.STRING ∈ t then PIN_STR else 0)

/-- Freshness invariant of the Graph Store: every node id in the table and
every node id referenced by a wire is below the fresh-id counter. It holds
for every graph built by the store's own operations (ids are assigned
monotonically and never reused). -/
def Snarl.Fresh (s : Snarl) : Prop :=
  (∀ p ∈ s.nodes, p.1 < s.nextId) ∧
  (∀ w ∈ s.wires, w.out.node < s.nextId ∧ w.inp.node < s.nextId)

instance (s : Snarl) : Decidable s.Fresh := by
  unfold Snarl.Fresh; infer_instance

/-! Helper lemmas about the modelled Graph Store operations. -/

theorem Snarl.connect_nodes (s : Snarl) (o : OutPinId) (i : InPinId) :
    (s.connect o i).nodes = s.nodes := by
  unfold Snarl.connect; split <;> rfl

theorem Snarl.connect_nextId (s : Snarl) (o : OutPinId) (i : InPinId) :
    (s.connect o i).nextId = s.nextId := by
  unfold Snarl.connect; split <;> rfl

theorem Snarl.disconnect_nodes (s : Snarl) (o : OutPinId) (i : InPinId) :
    (s.disconnect o i).nodes = s.nodes := rfl

theorem Snarl.disconnect_nextId (s : Snarl) (o : OutPinId) (i : InPinId) :
    (s.disconnect o i).nextId = s.nextId := rfl

theorem Snarl.dropInputs_nodes (s : Snarl) (i : InPinId) :
    (s.dropInputs i).nodes = s.nodes := rfl

theorem Snarl.getNode_eq_of_nodes_eq {s t : Snarl} (h : s.nodes = t.nodes)
    (id : Nat) : s.getNode id = t.getNode id := by
  unfold Snarl.getNode; rw [h]

theorem connectionsInto_connect_other (s : Snarl) (o : OutPinId)
    {i q : InPinId} (h : q ≠ i) :
    connectionsInto (s.connect o i) q = connectionsInto s q := by
  unfold connectionsInto Snarl.connect
  split
  · rfl
  · simp only [List.filter_append]
    have : List.filter (fun w => w.inp == q) ([⟨o, i⟩] : List Wire) = [] := by
      simp [Ne.symm h]
    rw [this, List.append_nil]

theorem connectionsInto_dropInputs_other (s : Snarl) {i q : InPinId}
    (h : q ≠ i) :
    connectionsInto (s.dropInputs i) q = connectionsInto s q := by
  unfold connectionsInto Snarl.dropInputs
  simp only [List.filter_filter]
  apply List.filter_congr
  intro w _
  by_cases hw : w.inp = q
  · simp [hw, h]
  · simp [hw]

theorem connectionsInto_dropInputs_self (s : Snarl) (i : InPinId) :
    connectionsInto (s.dropInputs i) i = [] := by
  unfold connectionsInto Snarl.dropInputs
  simp only [List.filter_filter]
  simp

theorem connectionsInto_drop_connect_self (s : Snarl) (o : OutPinId)
    (i : InPinId) :
    connectionsInto ((s.dropInputs i).connect o i) i = [⟨o, i⟩] := by
  have hnm : (⟨o, i⟩ : Wire) ∉ (s.dropInputs i).wires := by
    intro hmem
    simp only [Snarl.dropInputs, List.mem_filter] at hmem
    simp at hmem
  unfold Snarl.connect
  rw [if_neg (by simpa using hnm)]
  unfold connectionsInto
  simp only [List.filter_append]
  have h1 : ((s.dropInputs i).wires.filter (fun w => w.inp == i)) = [] :=
    connectionsInto_dropInputs_self s i
  rw [h1]
  simp

theorem foldl_disconnect_wires (i : InPinId) :
    ∀ (rs : List OutPinId) (s : Snarl),
      (rs.foldl (fun acc r => acc.disconnect r i) s).wires
        = s.wires.filter (fun w => rs.all (fun r => w != ⟨r, i⟩))
  | [], s => by simp
  | r :: rs, s => by
    rw [List.foldl_cons, foldl_disconnect_wires i rs (s.disconnect r i)]
    show ((s.wires.filter fun w => w != ⟨r, i⟩).filter
        fun w => rs.all fun r => w != ⟨r, i⟩) = _
    rw [List.filter_filter]
    apply List.filter_congr
    intro w _
    simp [Bool.and_comm]

theorem foldl_disconnect_nodes (i : InPinId) :
    ∀ (rs : List OutPinId) (s : Snarl),
      (rs.foldl (fun acc r => acc.disconnect r i) s).nodes = s.nodes
  | [], _ => rfl
  | r :: rs, s => foldl_disconnect_nodes i rs (s.disconnect r i)

theorem foldl_disconnect_nextId (i : InPinId) :
    ∀ (rs : List OutPinId) (s : Snarl),
      (rs.foldl (fun acc r => acc.disconnect r i) s).nextId = s.nextId
  | [], _ => rfl
  | r :: rs, s => foldl_disconnect_nextId i rs (s.disconnect r i)

theorem remotes_filter_eq (s : Snarl) (t : InPinId) :
    (s.wires.filter fun w =>
        ((connectionsInto s t).map (fun w => w.out)).all fun r => w != ⟨r, t⟩)
      = s.wires.filter (fun w => w.inp != t) := by
  apply List.filter_congr
  intro w hw
  by_cases h : w.inp = t
  · have hmem : w.out ∈ (connectionsInto s t).map (fun w => w.out) := by
      simp only [List.mem_map]
      exact ⟨w, by simp [connectionsInto, hw, h], rfl⟩
    have : ((connectionsInto s t).map (fun w => w.out)).all
        (fun r => w != ⟨r, t⟩) = false := by
      refine List.all_eq_false.mpr ⟨w.out, hmem, ?_⟩
      cases w
      simp_all
    rw [this]
    simp [h]
  · have : ((connectionsInto s t).map (fun w => w.out)).all
        (fun r => w != ⟨r, t⟩) = true := by
      refine List.all_eq_true.mpr ?_
      intro r _
      cases w
      simp_all
    rw [this]
    simp [h]

/-- Case analysis of `EditorViewer::connect`: either the call does not take
the connecting branch and the graph is returned untouched, or it takes the
connecting branch, in which case the node table and the fresh-id counter
are untouched and the connection set becomes the old one purged of every
wire into the destination pin, followed by the new wire. -/
theorem viewer_connect_spec (f : OutPinId) (t : InPinId) (s : Snarl) :
    ((EditorViewer.connect f t s).1 ≠ ConnectOutcome.connected ∧
      (EditorViewer.connect f t s).2 = s) ∨
    ((EditorViewer.connect f t s).1 = ConnectOutcome.connected ∧
      (EditorViewer.connect f t s).2.nodes = s.nodes ∧
      (EditorViewer.connect f t s).2.nextId = s.nextId ∧
      (EditorViewer.connect f t s).2.wires
        = s.wires.filter (fun w => w.inp != t) ++ [⟨f, t⟩]) := by
  unfold EditorViewer.connect
  cases hf : s.getNode f.node with
  | none => left; exact ⟨by simp, rfl⟩
  | some a =>
    cases ht : s.getNode t.node with
    | none => left; cases a <;> exact ⟨by simp, rfl⟩
    | some b =>
      cases a with
      | Sink => left; cases b <;> exact ⟨by simp, rfl⟩
      | Number v =>
        cases b with
        | Sink =>
          right
          refine ⟨rfl, ?_, ?_, ?_⟩
          · simp only
            rw [Snarl.connect_nodes, foldl_disconnect_nodes]
          · simp only
            rw [Snarl.connect_nextId, foldl_disconnect_nextId]
          · simp only
            have hw := foldl_disconnect_wires t
              ((connectionsInto s t).map (fun w => w.out)) s
            have hnotin : (⟨f, t⟩ : Wire) ∉
                (((connectionsInto s t).map (fun w => w.out)).foldl
                  (fun acc r => acc.disconnect r t) s).wires := by
              rw [hw, remotes_filter_eq]
              simp
            unfold Snarl.connect
            rw [if_neg (by simpa using hnotin)]
            rw [hw, remotes_filter_eq]
        | Number v2 => left; exact ⟨by simp, rfl⟩
        | String v2 => left; exact ⟨by simp, rfl⟩
      | String v =>
        cases b with
        | Sink =>
          right
          refine ⟨rfl, ?_, ?_, ?_⟩
          · simp only
            rw [Snarl.connect_nodes, foldl_disconnect_nodes]
          · simp only
            rw [Snarl.connect_nextId, foldl_disconnect_nextId]
          · simp only
            have hw := foldl_disconnect_wires t
              ((connectionsInto s t).map (fun w => w.out)) s
            have hnotin : (⟨f, t⟩ : Wire) ∉
                (((connectionsInto s t).map (fun w => w.out)).foldl
                  (fun acc r => acc.disconnect r t) s).wires := by
              rw [hw, remotes_filter_eq]
              simp
            unfold Snarl.connect
            rw [if_neg (by simpa using hnotin)]
            rw [hw, remotes_filter_eq]
        | Number v2 => left; exact ⟨by simp, rfl⟩
        | String v2 => left; exact ⟨by simp, rfl⟩

/-- A call that does not take the connecting branch returns the graph
untouched. -/
theorem viewer_connect_noop (f : OutPinId) (t : InPinId) (s : Snarl)
    (h : (EditorViewer.connect f t s).1 ≠ ConnectOutcome.connected) :
    (EditorViewer.connect f t s).2 = s := by
  rcases viewer_connect_spec f t s with ⟨_, h2⟩ | ⟨h1, _⟩
  · exact h2
  · exact absurd h1 h

/-- A call that takes the connecting branch leaves its destination pin with
exactly the new wire. -/
theorem viewer_connect_target (f : OutPinId) (t : InPinId) (s : Snarl)
    (h : (EditorViewer.connect f t s).1 = ConnectOutcome.connected) :
    connectionsInto (EditorViewer.connect f t s).2 t = [⟨f, t⟩] := by
  rcases viewer_connect_spec f t s with ⟨h1, _⟩ | ⟨_, _, _, h2⟩
  · exact absurd h h1
  · unfold connectionsInto
    rw [h2, List.filter_append]
    have hl : List.filter (fun w => w.inp == t)
        (s.wires.filter fun w => w.inp != t) = [] := by
      rw [List.filter_filter]
      simp
    have hr : List.filter (fun w => w.inp == t) ([⟨f, t⟩] : List Wire)
        = [⟨f, t⟩] := by simp
    rw [hl, hr, List.nil_append]

/-- A connect call never changes the connections into any other input pin. -/
theorem viewer_connect_frame (f : OutPinId) (t : InPinId) (s : Snarl)
    {q : InPinId} (hq : q ≠ t) :
    connectionsInto (EditorViewer.connect f t s).2 q = connectionsInto s q := by
  rcases viewer_connect_spec f t s with ⟨_, h2⟩ | ⟨_, _, _, h2⟩
  · rw [h2]
  · unfold connectionsInto
    rw [h2, List.filter_append, List.filter_filter]
    have h3 : List.filter (fun w => w.inp == q) ([⟨f, t⟩] : List Wire) = [] := by
      simp [Ne.symm hq]
    rw [h3, List.append_nil]
    apply List.filter_congr
    intro w _
    by_cases hw : w.inp = q
    · simp [hw, hq]
    · simp [hw]

/-- One call to `EditorViewer::connect`, recorded by its two pin arguments. -/
structure ConnectOp where
  src : OutPinId
  dst : InPinId
deriving DecidableEq

/-- Sequential application of calls through `EditorViewer::connect`. -/
def applyConnects (s : Snarl) : List ConnectOp → Snarl
  | [] => s
  | op :: rest => applyConnects (EditorViewer.connect op.src op.dst s).2 rest

/-- Source pin of the most recent call of the sequence that takes the
connecting branch with destination `p`, each call evaluated at the
intermediate state the sequence produces for it. -/
def lastSuccessfulInto (s : Snarl) (p : InPinId) :
    List ConnectOp → Option OutPinId
  | [] => none
  | op :: rest =>
    match lastSuccessfulInto (EditorViewer.connect op.src op.dst s).2 p rest with
    | some o => some o
    | none =>
      if (EditorViewer.connect op.src op.dst s).1 = ConnectOutcome.connected
          ∧ op.dst = p
      then some op.src else none

/-- A sequence with no successful connect into `p` leaves the connections
into `p` untouched. -/
theorem no_success_frame (p : InPinId) :
    ∀ (ops : List ConnectOp) (s : Snarl),
      lastSuccessfulInto s p ops = none →
      connectionsInto (applyConnects s ops) p = connectionsInto s p
  | [], _, _ => rfl
  | op :: rest, s, h => by
    unfold lastSuccessfulInto at h
    cases hrec : lastSuccessfulInto (EditorViewer.connect op.src op.dst s).2
        p rest with
    | some o => rw [hrec] at h; exact absurd h (by simp)
    | none =>
      rw [hrec] at h
      by_cases hc : (EditorViewer.connect op.src op.dst s).1
          = ConnectOutcome.connected ∧ op.dst = p
      · rw [if_pos hc] at h; exact absurd h (by simp)
      · have hstep : connectionsInto (EditorViewer.connect op.src op.dst s).2 p
            = connectionsInto s p := by
          by_cases hconn : (EditorViewer.connect op.src op.dst s).1
              = ConnectOutcome.connected
          · have hdp : op.dst ≠ p := fun hh => hc ⟨hconn, hh⟩
            exact viewer_connect_frame _ _ _ (Ne.symm hdp)
          · rw [viewer_connect_noop _ _ _ hconn]
        show connectionsInto
            (applyConnects (EditorViewer.connect op.src op.dst s).2 rest) p = _
        rw [no_success_frame p rest _ hrec, hstep]

/-- C1: for every input pin p, after any sequence of connect operations
performed through `EditorViewer::connect` targeting p, at most one
connection into p exists, and it is the one created by the most recent
successful connect: connecting a new output to an already-connected input
removes the prior connection first (last-write-wins). Stated over any
starting graph already satisfying the single-input-connection invariant at
p and any sequence of calls. -/
theorem c1_last_write_wins :
    ∀ (ops : List ConnectOp) (s : Snarl) (p : InPinId),
      (connectionsInto s p).length ≤ 1 →
      (connectionsInto (applyConnects s ops) p).length ≤ 1 ∧
      (∀ o, lastSuccessfulInto s p ops = some o →
        connectionsInto (applyConnects s ops) p = [⟨o, p⟩])
  | [], s, p, hinv => by
    refine ⟨hinv, ?_⟩
    intro o h
    exact absurd h (by simp [lastSuccessfulInto])
  | op :: rest, s, p, hinv => by
    have hstepinv :
        (connectionsInto (EditorViewer.connect op.src op.dst s).2 p).length
          ≤ 1 := by
      by_cases hconn : (EditorViewer.connect op.src op.dst s).1
          = ConnectOutcome.connected
      · by_cases hdp : op.dst = p
        · subst hdp
          rw [viewer_connect_target _ _ _ hconn]
          simp
        · rw [viewer_connect_frame _ _ _ (fun hh => hdp hh.symm)]
          exact hinv
      · rw [viewer_connect_noop _ _ _ hconn]
        exact hinv
    have ih := c1_last_write_wins rest
      (EditorViewer.connect op.src op.dst s).2 p hstepinv
    refine ⟨ih.1, ?_⟩
    intro o h
    unfold lastSuccessfulInto at h
    cases hrec : lastSuccessfulInto (EditorViewer.connect op.src op.dst s).2
        p rest with
    | some o2 =>
      rw [hrec] at h
      simp only [Option.some.injEq] at h
      subst h
      exact ih.2 o2 hrec
    | none =>
      rw [hrec] at h
      by_cases hc : (EditorViewer.connect op.src op.dst s).1
          = ConnectOutcome.connected ∧ op.dst = p
      · rw [if_pos hc] at h
        simp only [Option.some.injEq] at h
        subst h
        obtain ⟨hconn, hdp⟩ := hc
        subst hdp
        show connectionsInto
            (applyConnects (EditorViewer.connect op.src op.dst s).2 rest)
            op.dst = _
        rw [no_success_frame op.dst rest _ hrec]
        exact viewer_connect_target op.src op.dst s hconn
      · rw [if_neg hc] at h
        exact absurd h (by simp)

/-- Sample graph: a Number source (id 0), a Sink (id 1) and a second Number
source (id 2), with the first source already wired into the sink. -/
def exampleGraph : Snarl :=
  ⟨[(0, .Number 3), (1, .Sink), (2, .Number 7)], [⟨⟨0, 0⟩, ⟨1, 0⟩⟩], 3⟩

/-- Sample call sequence: rewire the sink input to source 2, then to
source 0 again. -/
def exampleOps : List ConnectOp :=
  [⟨⟨2, 0⟩, ⟨1, 0⟩⟩, ⟨⟨0, 0⟩, ⟨1, 0⟩⟩]

/-- Witness for C1 at a concrete graph and call sequence. -/
theorem c1_last_write_wins_witness :
    (connectionsInto exampleGraph ⟨1, 0⟩).length ≤ 1 ∧
    ((connectionsInto (applyConnects exampleGraph exampleOps) ⟨1, 0⟩).length
        ≤ 1 ∧
      (∀ o, lastSuccessfulInto exampleGraph ⟨1, 0⟩ exampleOps = some o →
        connectionsInto (applyConnects exampleGraph exampleOps) ⟨1, 0⟩
          = [⟨o, ⟨1, 0⟩⟩])) :=
  ⟨by decide, c1_last_write_wins exampleOps exampleGraph ⟨1, 0⟩ (by decide)⟩

/-- C6: the compatibility mask functions satisfy exactly the spec's table —
the output mask is {NUMBER} for a NumberSource, {STRING} for a
StringSource, empty for a Sink; the input mask is {NUMBER, STRING} for a
Sink and empty for NumberSource/StringSource — and two pins are
connectable (`EditorViewer::connect` takes the connecting branch) iff the
bitwise AND of their masks is non-empty. -/
theorem c6_mask_table :
    (∀ n, pin_out_compat n = maskBits (specOutMask n)) ∧
    (∀ n, pin_in_compat n = maskBits (specInMask n)) ∧
    (∀ (s : Snarl) (f : OutPinId) (t : InPinId) (a b : EditorNode),
      s.getNode f.node = some a → s.getNode t.node = some b →
      ((EditorViewer.connect f t s).1 = ConnectOutcome.connected ↔
        pin_out_compat a &&& pin_in_compat b ≠ 0)) := by
  refine ⟨?_, ?_, ?_⟩
  · intro n
    cases n <;>
      simp [pin_out_compat, maskBits, specOutMask, PIN_NUM, PIN_STR]
  · intro n
    cases n <;>
      simp [pin_in_compat, maskBits, specInMask, PIN_NUM, PIN_STR, PIN_SINK]
  · intro s f t a b hf ht
    unfold EditorViewer.connect
    rw [hf, ht]
    cases a <;> cases b <;>
      simp [pin_out_compat, pin_in_compat, PIN_NUM, PIN_STR, PIN_SINK]

/-- Witness for C6 at a concrete graph: source 0 (a Number) into the input
of sink 1 is connectable, matching the non-empty mask intersection. -/
theorem c6_mask_table_witness :
    exampleGraph.getNode 0 = some (EditorNode.Number 3) ∧
    exampleGraph.getNode 1 = some EditorNode.Sink ∧
    ((EditorViewer.connect ⟨0, 0⟩ ⟨1, 0⟩ exampleGraph).1
        = ConnectOutcome.connected ↔
      pin_out_compat (EditorNode.Number 3) &&& pin_in_compat EditorNode.Sink
        ≠ 0) :=
  ⟨by decide, by decide,
    c6_mask_table.2.2 exampleGraph ⟨0, 0⟩ ⟨1, 0⟩ (EditorNode.Number 3)
      EditorNode.Sink (by decide) (by decide)⟩

/-- Graph with a Sink (id 0) and a Number source (id 1), exhibiting the
panic branch of the connect handler. -/
def sinkFirstGraph : Snarl := ⟨[(0, .Sink), (1, .Number 5)], [], 2⟩

/-- C9 counterexample: a call whose destination pin sits on a NumberSource
node is not always a silent no-op — when the (ill-formed) source pin sits
on a Sink node, the call hits the `unreachable!` panic instead of
returning silently with no error. -/
theorem c9_counterexample :
    sinkFirstGraph.getNode 1 = some (EditorNode.Number 5) ∧
    (EditorViewer.connect ⟨0, 0⟩ ⟨1, 0⟩ sinkFirstGraph).1
      = ConnectOutcome.panicSinkNoOutputs := by decide

/-- C9 (amended): for every call to `EditorViewer::connect` whose source
pin sits on an existing non-Sink node (as every output pin the editor
produces does) and whose destination pin's node is a NumberSource or
StringSource (a node with no inputs), the graph is left completely
unchanged and no error is produced or surfaced: the attempt is a silent
no-op rather than a reported failure. -/
theorem c9_silent_noop (s : Snarl) (f : OutPinId) (t : InPinId)
    (a b : EditorNode) (hf : s.getNode f.node = some a)
    (ht : s.getNode t.node = some b) (ha : a ≠ EditorNode.Sink)
    (hb : (∃ v, b = EditorNode.Number v) ∨ (∃ v, b = EditorNode.String v)) :
    EditorViewer.connect f t s = (ConnectOutcome.ignored, s) := by
  unfold EditorViewer.connect
  rw [hf, ht]
  cases a with
  | Sink => exact absurd rfl ha
  | Number v =>
    rcases hb with ⟨v2, rfl⟩ | ⟨v2, rfl⟩ <;> rfl
  | String v =>
    rcases hb with ⟨v2, rfl⟩ | ⟨v2, rfl⟩ <;> rfl

/-- Graph with two Number sources, used for silently-ignored calls. -/
def twoSourcesGraph : Snarl := ⟨[(0, .Number 1), (1, .Number 2)], [], 2⟩

/-- Witness for the amended C9 at a concrete graph. -/
theorem c9_silent_noop_witness :
    twoSourcesGraph.getNode 0 = some (EditorNode.Number 1) ∧
    twoSourcesGraph.getNode 1 = some (EditorNode.Number 2) ∧
    EditorViewer.connect ⟨0, 0⟩ ⟨1, 0⟩ twoSourcesGraph
      = (ConnectOutcome.ignored, twoSourcesGraph) :=
  ⟨by decide, by decide,
    c9_silent_noop twoSourcesGraph ⟨0, 0⟩ ⟨1, 0⟩ (EditorNode.Number 1)
      (EditorNode.Number 2) (by decide) (by decide) (by decide) (Or.inl ⟨2, rfl⟩)⟩

/-- C10: `EditorViewer::outputs` gives a Sink zero output pins, and for any
call to `EditorViewer::connect` whose pins are valid for their nodes (the
pin index is below the node's pin count, true of every pin the editor
produces), the `unreachable!` branch for a Sink source is never reached —
indeed no panic of any kind occurs, so connect never aborts on well-formed
input. -/
theorem c10_unreachable_safe :
    EditorViewer.outputs EditorNode.Sink = 0 ∧
    (∀ (s : Snarl) (f : OutPinId) (t : InPinId) (a b : EditorNode),
      s.getNode f.node = some a → f.output < EditorViewer.outputs a →
      s.getNode t.node = some b → t.input < EditorViewer.inputs b →
      (EditorViewer.connect f t s).1 ≠ ConnectOutcome.panicSinkNoOutputs ∧
      (EditorViewer.connect f t s).1 ≠ ConnectOutcome.panicMissingNode) := by
  refine ⟨rfl, ?_⟩
  intro s f t a b hf hfo ht hti
  unfold EditorViewer.connect
  rw [hf, ht]
  cases a with
  | Sink => simp [EditorViewer.outputs] at hfo
  | Number v => cases b <;> simp
  | String v => cases b <;> simp

/-- Witness for C10 at a concrete graph with valid pins on both ends. -/
theorem c10_unreachable_safe_witness :
    exampleGraph.getNode 0 = some (EditorNode.Number 3) ∧
    (0 : Nat) < EditorViewer.outputs (EditorNode.Number 3) ∧
    exampleGraph.getNode 1 = some EditorNode.Sink ∧
    (0 : Nat) < EditorViewer.inputs EditorNode.Sink ∧
    ((EditorViewer.connect ⟨0, 0⟩ ⟨1, 0⟩ exampleGraph).1
        ≠ ConnectOutcome.panicSinkNoOutputs ∧
      (EditorViewer.connect ⟨0, 0⟩ ⟨1, 0⟩ exampleGraph).1
        ≠ ConnectOutcome.panicMissingNode) :=
  ⟨by decide, by decide, by decide, by decide,
    c10_unreachable_safe.2 exampleGraph ⟨0, 0⟩ ⟨1, 0⟩ (EditorNode.Number 3)
      EditorNode.Sink (by decide) (by decide) (by decide) (by decide)⟩

/-- C4: a gesture in which more than one output pin is mid-drag
simultaneously, released on empty canvas, is rejected: no node is created,
no connection is added or removed (the graph comes back untouched), and
the inline unsupported-gesture message is shown. -/
theorem c4_multi_output_rejected (pins : List OutPinId) (clickSink : Bool)
    (s : Snarl) (h : 2 ≤ pins.length) :
    showDroppedWireMenuOut pins clickSink s
      = (OutMenuOutcome.unsupportedMessage, s) := by
  match pins with
  | [] => simp at h
  | p :: rest =>
    have hne : rest ≠ [] := by
      cases rest
      · simp at h
      · simp
    simp only [showDroppedWireMenuOut]
    rw [if_pos hne]

/-- Witness for C4: dragging the two Number outputs of the sample graph at
once is rejected with the message and no mutation. -/
theorem c4_multi_output_rejected_witness :
    2 ≤ ([⟨0, 0⟩, ⟨2, 0⟩] : List OutPinId).length ∧
    showDroppedWireMenuOut [⟨0, 0⟩, ⟨2, 0⟩] true exampleGraph
      = (OutMenuOutcome.unsupportedMessage, exampleGraph) :=
  ⟨by decide,
    c4_multi_output_rejected [⟨0, 0⟩, ⟨2, 0⟩] true exampleGraph (by decide)⟩

/-- Inserting a node preserves every existing lookup. -/
theorem getNode_insertNode_of_some (s : Snarl) (m : EditorNode) {id : Nat}
    {n : EditorNode} (h : s.getNode id = some n) :
    (s.insertNode m).2.getNode id = some n := by
  unfold Snarl.getNode Snarl.insertNode at *
  simp only [List.find?_append]
  cases hfind : s.nodes.find? (fun p => p.1 == id) with
  | none => rw [hfind] at h; simp at h
  | some q => rw [hfind] at h; simpa using h

/-- On a graph whose node ids are below the counter, the freshly inserted
node is found under the fresh id. -/
theorem getNode_insertNode_fresh (s : Snarl) (m : EditorNode)
    (hfresh : ∀ p ∈ s.nodes, p.1 < s.nextId) :
    (s.insertNode m).2.getNode s.nextId = some m := by
  unfold Snarl.getNode Snarl.insertNode
  simp only [List.find?_append]
  have h1 : s.nodes.find? (fun p => p.1 == s.nextId) = none := by
    rw [List.find?_eq_none]
    intro p hp
    simpa using Nat.ne_of_lt (hfresh p hp)
  rw [h1]
  simp

/-- Raw connect of a wire into a pin nothing points at yet: the wire is
appended and is the only connection into that pin. -/
theorem connect_fresh (s : Snarl) (p : OutPinId) (i : InPinId)
    (hno : ∀ w ∈ s.wires, w.inp ≠ i) :
    (s.connect p i).wires = s.wires ++ [⟨p, i⟩] ∧
    connectionsInto (s.connect p i) i = [⟨p, i⟩] := by
  have hnc : (⟨p, i⟩ : Wire) ∉ s.wires := fun hmem => hno _ hmem rfl
  have hw : (s.connect p i).wires = s.wires ++ [⟨p, i⟩] := by
    unfold Snarl.connect
    rw [if_neg (by simpa using hnc)]
  refine ⟨hw, ?_⟩
  unfold connectionsInto
  rw [hw, List.filter_append]
  have h1 : s.wires.filter (fun w => w.inp == i) = [] := by
    rw [List.filter_eq_nil_iff]
    intro w hwm
    simpa using hno w hwm
  rw [h1]
  simp

/-- C5: a single output pin dragged and released on empty canvas always
gets the Sink entry offered (the dragged output's mask intersects Sink's
input mask whenever the pin really is an output pin of its node), and
selecting the entry inserts one Sink node and connects the dragged output
to the new Sink's input pin 0 before control returns, so the returned
state never shows the freshly created node unconnected. -/
theorem c5_single_output_sink (s : Snarl) (p : OutPinId) (n : EditorNode)
    (hfresh : s.Fresh) (hn : s.getNode p.node = some n)
    (hout : p.output < EditorViewer.outputs n) :
    (showDroppedWireMenuOut [p] false s).1 = OutMenuOutcome.shown true ∧
    (showDroppedWireMenuOut [p] true s).1 = OutMenuOutcome.shown true ∧
    (showDroppedWireMenuOut [p] true s).2.nodes
      = s.nodes ++ [(s.nextId, EditorNode.Sink)] ∧
    (showDroppedWireMenuOut [p] true s).2.wires
      = s.wires ++ [⟨p, ⟨s.nextId, 0⟩⟩] ∧
    connectionsInto (showDroppedWireMenuOut [p] true s).2 ⟨s.nextId, 0⟩
      = [⟨p, ⟨s.nextId, 0⟩⟩] := by
  have hne : n ≠ EditorNode.Sink := by
    intro hh
    subst hh
    simp [EditorViewer.outputs] at hout
  have hmask : pin_out_compat n &&& PIN_SINK ≠ 0 := by
    cases n with
    | Sink => exact absurd rfl hne
    | Number v =>
      show PIN_NUM &&& PIN_SINK ≠ 0
      decide
    | String v =>
      show PIN_STR &&& PIN_SINK ≠ 0
      decide
  have hnowire : ∀ w ∈ (s.insertNode EditorNode.Sink).2.wires,
      w.inp ≠ (⟨s.nextId, 0⟩ : InPinId) := by
    intro w hwm
    have hb := (hfresh.2 w hwm).2
    intro hh
    rw [hh] at hb
    exact Nat.lt_irrefl _ hb
  have hstate : showDroppedWireMenuOut [p] true s
      = (OutMenuOutcome.shown true,
        (s.insertNode EditorNode.Sink).2.connect p ⟨s.nextId, 0⟩) := by
    simp [showDroppedWireMenuOut, hn, hmask, Snarl.insertNode]
  have hconn := connect_fresh (s.insertNode EditorNode.Sink).2 p
    ⟨s.nextId, 0⟩ hnowire
  refine ⟨?_, ?_, ?_, ?_, ?_⟩
  · simp [showDroppedWireMenuOut, hn, hmask]
  · rw [hstate]
  · rw [hstate]
    show ((s.insertNode EditorNode.Sink).2.connect p ⟨s.nextId, 0⟩).nodes = _
    rw [Snarl.connect_nodes]
    rfl
  · rw [hstate]
    exact hconn.1
  · rw [hstate]
    exact hconn.2

/-- Witness for C5 on the sample graph: dragging the output of Number
node 2 and choosing Sink creates sink 3 wired from that output. -/
theorem c5_single_output_sink_witness :
    exampleGraph.Fresh ∧
    exampleGraph.getNode 2 = some (EditorNode.Number 7) ∧
    (0 : Nat) < EditorViewer.outputs (EditorNode.Number 7) ∧
    ((showDroppedWireMenuOut [⟨2, 0⟩] false exampleGraph).1
        = OutMenuOutcome.shown true ∧
      (showDroppedWireMenuOut [⟨2, 0⟩] true exampleGraph).1
        = OutMenuOutcome.shown true ∧
      (showDroppedWireMenuOut [⟨2, 0⟩] true exampleGraph).2.nodes
        = exampleGraph.nodes ++ [(3, EditorNode.Sink)] ∧
      (showDroppedWireMenuOut [⟨2, 0⟩] true exampleGraph).2.wires
        = exampleGraph.wires ++ [⟨⟨2, 0⟩, ⟨3, 0⟩⟩] ∧
      connectionsInto (showDroppedWireMenuOut [⟨2, 0⟩] true exampleGraph).2
        ⟨3, 0⟩ = [⟨⟨2, 0⟩, ⟨3, 0⟩⟩]) :=
  ⟨by decide, by decide, by decide,
    c5_single_output_sink exampleGraph ⟨2, 0⟩ (EditorNode.Number 7)
      (by decide) (by decide) (by decide)⟩

/-- Filtering out the entries of key `n` does not change a lookup of a
different key `m`. -/
theorem find?_key_filter_ne (l : List (Nat × EditorNode)) (n m : Nat)
    (hm : m ≠ n) :
    (l.filter (fun p => p.1 != n)).find? (fun p => p.1 == m)
      = l.find? (fun p => p.1 == m) := by
  induction l with
  | nil => rfl
  | cons p rest ih =>
    by_cases h1 : p.1 = m
    · rw [List.filter_cons_of_pos (by simp [h1, hm]),
        List.find?_cons_of_pos _ (by simp [h1]),
        List.find?_cons_of_pos _ (by simp [h1])]
    · by_cases h2 : p.1 = n
      · rw [List.filter_cons_of_neg (by simp [h2]), ih,
          List.find?_cons_of_neg _ (by simp [h1])]
      · rw [List.filter_cons_of_pos (by simp [h2]),
          List.find?_cons_of_neg _ (by simp [h1]),
          List.find?_cons_of_neg _ (by simp [h1]), ih]

/-- C7: removing a node n through the node context menu's Remove action
(which delegates to the Graph Store's `remove_node`) leaves no connection
referencing n as either endpoint, makes looking up n report NotFound, and
leaves every other node in place; in particular an input pin of a
surviving node whose single connection came from n ends up with an empty
connection set — removing a source that feeds a Sink leaves the Sink
existing with no input connection. -/
theorem c7_remove_node (s : Snarl) (n : Nat) :
    (∀ w ∈ (showNodeMenu n true s).wires, w.out.node ≠ n ∧ w.inp.node ≠ n) ∧
    (showNodeMenu n true s).getNode n = none ∧
    (∀ m, m ≠ n → (showNodeMenu n true s).getNode m = s.getNode m) ∧
    (∀ (p : InPinId) (w : Wire), p.node ≠ n → connectionsInto s p = [w] →
      w.out.node = n → connectionsInto (showNodeMenu n true s) p = []) := by
  have hmenu : showNodeMenu n true s = s.removeNode n := by
    unfold showNodeMenu
    rw [if_pos rfl]
  refine ⟨?_, ?_, ?_, ?_⟩
  · intro w hw
    rw [hmenu] at hw
    unfold Snarl.removeNode at hw
    rw [List.mem_filter] at hw
    have := hw.2
    simp at this
    exact this
  · rw [hmenu]
    unfold Snarl.removeNode Snarl.getNode
    have : (s.nodes.filter (fun p => p.1 != n)).find? (fun p => p.1 == n)
        = none := by
      rw [List.find?_eq_none]
      intro p hp
      rw [List.mem_filter] at hp
      simpa using hp.2
    rw [this]
    rfl
  · intro m hm
    rw [hmenu]
    unfold Snarl.removeNode Snarl.getNode
    rw [find?_key_filter_ne s.nodes n m hm]
  · intro p w hp hcon hwout
    rw [hmenu]
    unfold Snarl.removeNode connectionsInto
    rw [List.filter_eq_nil_iff]
    intro u hu
    rw [List.mem_filter] at hu
    intro hup
    have hu2 : u ∈ connectionsInto s p := by
      unfold connectionsInto
      rw [List.mem_filter]
      exact ⟨hu.1, hup⟩
    rw [hcon] at hu2
    rw [List.mem_singleton] at hu2
    subst hu2
    have := hu.2
    simp [hwout] at this

/-- Witness for C7 on the sample graph: removing Number node 0 (which
feeds the sink) leaves sink 1 in place with no input connection and makes
node 0 unfindable. -/
theorem c7_remove_node_witness :
    (showNodeMenu 0 true exampleGraph).getNode 0 = none ∧
    (showNodeMenu 0 true exampleGraph).getNode 1 = some EditorNode.Sink ∧
    connectionsInto (showNodeMenu 0 true exampleGraph) ⟨1, 0⟩ = [] :=
  ⟨(c7_remove_node exampleGraph 0).2.1,
    by
      rw [(c7_remove_node exampleGraph 0).2.2.1 1 (by decide)]
      decide,
    (c7_remove_node exampleGraph 0).2.2.2 ⟨1, 0⟩ ⟨⟨0, 0⟩, ⟨1, 0⟩⟩
      (by decide) (by decide) (by decide)⟩

/-- Projection lemma: inserting a node leaves the connection set alone. -/
theorem Snarl.insertNode_wires (s : Snarl) (m : EditorNode) :
    (s.insertNode m).2.wires = s.wires := rfl

/-- Projection lemma for the counter after `dropInputs`. -/
theorem Snarl.dropInputs_nextId (s : Snarl) (i : InPinId) :
    (s.dropInputs i).nextId = s.nextId := rfl

/-- Projection lemma for the wires after `dropInputs`. -/
theorem Snarl.dropInputs_wires (s : Snarl) (i : InPinId) :
    (s.dropInputs i).wires = s.wires.filter (fun w => w.inp != i) := rfl

/-- Raw connect either leaves the wires alone or appends the new wire. -/
theorem Snarl.connect_wires_cases (s : Snarl) (o : OutPinId) (i : InPinId) :
    (s.connect o i).wires = s.wires ∨
    (s.connect o i).wires = s.wires ++ [⟨o, i⟩] := by
  unfold Snarl.connect
  split
  · exact Or.inl rfl
  · exact Or.inr rfl

/-- Membership in the wires of a raw connect. -/
theorem mem_connect_wires {s : Snarl} {o : OutPinId} {i : InPinId} {w : Wire}
    (h : w ∈ (s.connect o i).wires) : w ∈ s.wires ∨ w = ⟨o, i⟩ := by
  rcases Snarl.connect_wires_cases s o i with hc | hc
  · rw [hc] at h
    exact Or.inl h
  · rw [hc, List.mem_append] at h
    rcases h with h | h
    · exact Or.inl h
    · exact Or.inr (by simpa using h)

/-- A zero union of naturals has zero parts. -/
theorem or_eq_zero_parts {x y : Nat} (h : x ||| y = 0) : x = 0 ∧ y = 0 := by
  constructor
  · apply Nat.eq_of_testBit_eq
    intro i
    have hb := congrArg (fun z => Nat.testBit z i) h
    simp only [Nat.testBit_or, Nat.zero_testBit] at hb
    simp only [Nat.zero_testBit]
    exact (Bool.or_eq_false_iff.mp hb).1
  · apply Nat.eq_of_testBit_eq
    intro i
    have hb := congrArg (fun z => Nat.testBit z i) h
    simp only [Nat.testBit_or, Nat.zero_testBit] at hb
    simp only [Nat.zero_testBit]
    exact (Bool.or_eq_false_iff.mp hb).2

/-- A union of masks meets `b` iff one of the parts does. -/
theorem or_and_ne_zero (x y b : Nat) :
    (x ||| y) &&& b ≠ 0 ↔ x &&& b ≠ 0 ∨ y &&& b ≠ 0 := by
  rw [Nat.and_distrib_right]
  constructor
  · intro h
    by_cases hx : x &&& b = 0
    · right
      intro hy
      rw [hx, hy, Nat.zero_or] at h
      exact h rfl
    · exact Or.inl hx
  · rintro (h | h) hz
    · exact h (or_eq_zero_parts hz).1
    · exact h (or_eq_zero_parts hz).2

/-- When the `all_src_types` fold succeeds, every dragged pin's node
exists. -/
theorem allSrcTypes_getNode (s : Snarl) :
    ∀ (pins : List InPinId) (acc t : Nat), allSrcTypes s acc pins = some t →
      ∀ p ∈ pins, ∃ n, s.getNode p.node = some n
  | [], _, _, _, p, hp => absurd hp (List.not_mem_nil p)
  | p0 :: ps, acc, t, h, p, hp => by
    unfold allSrcTypes at h
    cases hg : s.getNode p0.node with
    | none => rw [hg] at h; exact absurd h (by simp)
    | some n =>
      rw [hg] at h
      rcases List.mem_cons.mp hp with he | hp2
      · exact he ▸ ⟨n, hg⟩
      · exact allSrcTypes_getNode s ps _ t h p hp2

/-- Bit characterization of the `all_src_types` fold: the accumulated union
meets `b` iff the seed does or some dragged pin's input mask does. -/
theorem allSrcTypes_and (s : Snarl) (b : Nat) :
    ∀ (pins : List InPinId) (acc t : Nat), allSrcTypes s acc pins = some t →
      (t &&& b ≠ 0 ↔ acc &&& b ≠ 0 ∨
        ∃ p ∈ pins, ∃ n, s.getNode p.node = some n ∧
          pin_in_compat n &&& b ≠ 0)
  | [], acc, t, h => by
    unfold allSrcTypes at h
    injection h with h
    subst h
    simp
  | p0 :: ps, acc, t, h => by
    unfold allSrcTypes at h
    cases hg : s.getNode p0.node with
    | none => rw [hg] at h; exact absurd h (by simp)
    | some n =>
      rw [hg] at h
      have ih := allSrcTypes_and s b ps (acc ||| pin_in_compat n) t h
      rw [ih, or_and_ne_zero]
      constructor
      · rintro ((ha | hn) | ⟨p, hp, n2, hgn2, hbit⟩)
        · exact Or.inl ha
        · exact Or.inr ⟨p0, List.mem_cons_self p0 ps, n, hg, hn⟩
        · exact Or.inr ⟨p, List.mem_cons_of_mem _ hp, n2, hgn2, hbit⟩
      · rintro (ha | ⟨p, hp, n2, hgn2, hbit⟩)
        · exact Or.inl (Or.inl ha)
        · rcases List.mem_cons.mp hp with he | hp2
          · subst he
            rw [hg] at hgn2
            injection hgn2 with he2
            subst he2
            exact Or.inl (Or.inr hbit)
          · exact Or.inr ⟨p, hp2, n2, hgn2, hbit⟩

/-- The reconnection loop never touches the node table or the counter. -/
theorem reconnectLoop_nodes (d : OutPinId) (m : Nat) :
    ∀ (pins : List InPinId) (s s' : Snarl),
      reconnectLoop d m pins s = some s' →
      s'.nodes = s.nodes ∧ s'.nextId = s.nextId
  | [], _, _, h => by
    unfold reconnectLoop at h
    injection h with h
    subst h
    exact ⟨rfl, rfl⟩
  | p :: ps, s, s', h => by
    unfold reconnectLoop at h
    cases hg : s.getNode p.node with
    | none => rw [hg] at h; exact absurd h (by simp)
    | some n =>
      simp only [hg] at h
      by_cases hc : pin_in_compat n &&& m ≠ 0
      · rw [if_pos hc] at h
        have ih := reconnectLoop_nodes d m ps _ _ h
        rwa [Snarl.connect_nodes, Snarl.dropInputs_nodes, Snarl.connect_nextId,
          Snarl.dropInputs_nextId] at ih
      · rw [if_neg hc] at h
        exact reconnectLoop_nodes d m ps _ _ h

/-- The reconnection loop cannot panic when every dragged pin's node
exists. -/
theorem reconnectLoop_some (d : OutPinId) (m : Nat) :
    ∀ (pins : List InPinId) (s : Snarl),
      (∀ p ∈ pins, ∃ n, s.getNode p.node = some n) →
      ∃ s', reconnectLoop d m pins s = some s'
  | [], s, _ => ⟨s, rfl⟩
  | p :: ps, s, hall => by
    obtain ⟨n, hg⟩ := hall p (List.mem_cons_self p ps)
    unfold reconnectLoop
    simp only [hg]
    by_cases hc : pin_in_compat n &&& m ≠ 0
    · rw [if_pos hc]
      apply reconnectLoop_some d m ps
      intro q hq
      obtain ⟨nq, hgq⟩ := hall q (List.mem_cons_of_mem _ hq)
      have hnn : ((s.dropInputs p).connect d p).nodes = s.nodes := by
        rw [Snarl.connect_nodes, Snarl.dropInputs_nodes]
      refine ⟨nq, ?_⟩
      rw [Snarl.getNode_eq_of_nodes_eq hnn]
      exact hgq
    · rw [if_neg hc]
      exact reconnectLoop_some d m ps s
        (fun q hq => hall q (List.mem_cons_of_mem _ hq))

/-- The reconnection loop leaves a pin alone when every occurrence of that
pin in the dragged bundle has a mask-incompatible node. -/
theorem reconnectLoop_frame (d : OutPinId) (m : Nat) :
    ∀ (pins : List InPinId) (s s' : Snarl) (q : InPinId),
      reconnectLoop d m pins s = some s' →
      (∀ p ∈ pins, p = q →
        ∃ n, s.getNode p.node = some n ∧ pin_in_compat n &&& m = 0) →
      connectionsInto s' q = connectionsInto s q
  | [], _, _, _, h, _ => by
    unfold reconnectLoop at h
    injection h with h
    subst h
    rfl
  | p :: ps, s, s', q, h, hq => by
    unfold reconnectLoop at h
    cases hg : s.getNode p.node with
    | none => rw [hg] at h; exact absurd h (by simp)
    | some n =>
      simp only [hg] at h
      have hnn : ((s.dropInputs p).connect d p).nodes = s.nodes := by
        rw [Snarl.connect_nodes, Snarl.dropInputs_nodes]
      by_cases hc : pin_in_compat n &&& m ≠ 0
      · rw [if_pos hc] at h
        have hpq : p ≠ q := by
          intro he
          obtain ⟨n2, hg2, hz⟩ := hq p (List.mem_cons_self p ps) he
          rw [hg] at hg2
          injection hg2 with he2
          subst he2
          exact hc hz
        have htrans : ∀ r ∈ ps, r = q →
            ∃ n2, ((s.dropInputs p).connect d p).getNode r.node = some n2 ∧
              pin_in_compat n2 &&& m = 0 := by
          intro r hr hrq
          obtain ⟨n2, hg2, hz⟩ := hq r (List.mem_cons_of_mem _ hr) hrq
          refine ⟨n2, ?_, hz⟩
          rw [Snarl.getNode_eq_of_nodes_eq hnn]
          exact hg2
        rw [reconnectLoop_frame d m ps _ s' q h htrans,
          connectionsInto_connect_other _ d (Ne.symm hpq),
          connectionsInto_dropInputs_other _ (Ne.symm hpq)]
      · rw [if_neg hc] at h
        exact reconnectLoop_frame d m ps s s' q h
          (fun r hr => hq r (List.mem_cons_of_mem _ hr))

/-- After the reconnection loop, a dragged pin whose mask meets the chosen
output mask carries exactly the wire from the new output. -/
theorem reconnectLoop_target (d : OutPinId) (m : Nat) :
    ∀ (pins : List InPinId) (s s' : Snarl) (q : InPinId) (nq : EditorNode),
      reconnectLoop d m pins s = some s' →
      q ∈ pins → s.getNode q.node = some nq →
      pin_in_compat nq &&& m ≠ 0 →
      connectionsInto s' q = [⟨d, q⟩]
  | [], _, _, q, _, _, hmem, _, _ => absurd hmem (List.not_mem_nil q)
  | p :: ps, s, s', q, nq, h, hmem, hn, hcompat => by
    unfold reconnectLoop at h
    by_cases hqp : q = p
    · rw [← hqp] at h
      simp only [hn] at h
      rw [if_pos hcompat] at h
      have hnn : ((s.dropInputs q).connect d q).nodes = s.nodes := by
        rw [Snarl.connect_nodes, Snarl.dropInputs_nodes]
      by_cases hqps : q ∈ ps
      · refine reconnectLoop_target d m ps _ s' q nq h hqps ?_ hcompat
        rw [Snarl.getNode_eq_of_nodes_eq hnn]
        exact hn
      · have hfr := reconnectLoop_frame d m ps _ s' q h
          (fun r hr hrq => absurd (hrq ▸ hr) hqps)
        rw [hfr, connectionsInto_drop_connect_self]
    · have hps : q ∈ ps := by
        rcases List.mem_cons.mp hmem with he | hp2
        · exact absurd he hqp
        · exact hp2
      cases hg : s.getNode p.node with
      | none => rw [hg] at h; exact absurd h (by simp)
      | some n =>
        simp only [hg] at h
        have hnn : ((s.dropInputs p).connect d p).nodes = s.nodes := by
          rw [Snarl.connect_nodes, Snarl.dropInputs_nodes]
        by_cases hc : pin_in_compat n &&& m ≠ 0
        · rw [if_pos hc] at h
          refine reconnectLoop_target d m ps _ s' q nq h hps ?_ hcompat
          rw [Snarl.getNode_eq_of_nodes_eq hnn]
          exact hn
        · rw [if_neg hc] at h
          exact reconnectLoop_target d m ps s s' q nq h hps hn hcompat

/-- Every wire present after the reconnection loop was either already
present or goes from the chosen output into a mask-compatible dragged
pin. -/
theorem reconnectLoop_wires_subset (d : OutPinId) (m : Nat) :
    ∀ (pins : List InPinId) (s s' : Snarl),
      reconnectLoop d m pins s = some s' →
      ∀ w ∈ s'.wires, w ∈ s.wires ∨
        (w.out = d ∧ ∃ n, s.getNode w.inp.node = some n ∧
          pin_in_compat n &&& m ≠ 0)
  | [], _, _, h, w, hw => by
    unfold reconnectLoop at h
    injection h with h
    subst h
    exact Or.inl hw
  | p :: ps, s, s', h, w, hw => by
    unfold reconnectLoop at h
    cases hg : s.getNode p.node with
    | none => rw [hg] at h; exact absurd h (by simp)
    | some n =>
      simp only [hg] at h
      have hnn : ((s.dropInputs p).connect d p).nodes = s.nodes := by
        rw [Snarl.connect_nodes, Snarl.dropInputs_nodes]
      by_cases hc : pin_in_compat n &&& m ≠ 0
      · rw [if_pos hc] at h
        rcases reconnectLoop_wires_subset d m ps _ s' h w hw with
          hmem | ⟨hod, n2, hg2, hb2⟩
        · rcases mem_connect_wires hmem with hmem2 | he
          · rw [Snarl.dropInputs_wires] at hmem2
            exact Or.inl (List.mem_filter.mp hmem2).1
          · subst he
            exact Or.inr ⟨rfl, n, hg, hc⟩
        · right
          refine ⟨hod, n2, ?_, hb2⟩
          rw [Snarl.getNode_eq_of_nodes_eq hnn] at hg2
          exact hg2
      · rw [if_neg hc] at h
        exact reconnectLoop_wires_subset d m ps s s' h w hw

/-- Characterization of the dropped-wire-from-inputs menu on a click of an
offered entry: the state comes from inserting the template and running the
reconnection loop, and the menu entries shown reflect the accumulated
union of masks. -/
theorem showDroppedWireMenuIn_click (pins : List InPinId) (c : SourceChoice)
    (s : Snarl) (types : Nat) (ht : allSrcTypes s 0 pins = some types)
    (hoff : types &&& c.mask ≠ 0) :
    ∃ s2, reconnectLoop ⟨s.nextId, 0⟩ c.mask pins
        (s.insertNode c.template).2 = some s2 ∧
      showDroppedWireMenuIn pins (some c) s
        = (InMenuOutcome.shown (decide (types &&& PIN_NUM ≠ 0))
            (decide (types &&& PIN_STR ≠ 0)), s2) := by
  have hall : ∀ p ∈ pins, ∃ n,
      (s.insertNode c.template).2.getNode p.node = some n := by
    intro p hp
    obtain ⟨n, hg⟩ := allSrcTypes_getNode s pins 0 types ht p hp
    exact ⟨n, getNode_insertNode_of_some s c.template hg⟩
  obtain ⟨s2, hs2⟩ := reconnectLoop_some ⟨s.nextId, 0⟩ c.mask pins _ hall
  refine ⟨s2, hs2, ?_⟩
  unfold showDroppedWireMenuIn
  rw [ht]
  simp only [hoff, if_pos, if_true]
  rw [if_pos hoff]
  have hid : (s.insertNode c.template).1 = s.nextId := rfl
  rw [hid, hs2]

/-- C3: for a non-empty bundle of dragged input pins released on empty
canvas, the menu offers Number iff the union of the pins' input masks
meets the NUMBER bit and String iff it meets the STRING bit; selecting an
offered entry creates exactly one node of the chosen source variant, and
every dragged pin whose own mask meets the chosen output's mask loses its
existing connection and is wired to the new node's output, while pins with
non-intersecting masks are left untouched and no error is raised. -/
theorem c3_in_menu (s : Snarl) (pins : List InPinId) (c : SourceChoice)
    (types : Nat) (hne : pins ≠ [])
    (ht : allSrcTypes s 0 pins = some types)
    (hoff : types &&& c.mask ≠ 0) :
    (showDroppedWireMenuIn pins none s).1
      = InMenuOutcome.shown (decide (types &&& PIN_NUM ≠ 0))
          (decide (types &&& PIN_STR ≠ 0)) ∧
    ((types &&& PIN_NUM ≠ 0) ↔ ∃ p ∈ pins, ∃ n, s.getNode p.node = some n ∧
        pin_in_compat n &&& PIN_NUM ≠ 0) ∧
    ((types &&& PIN_STR ≠ 0) ↔ ∃ p ∈ pins, ∃ n, s.getNode p.node = some n ∧
        pin_in_compat n &&& PIN_STR ≠ 0) ∧
    (showDroppedWireMenuIn pins (some c) s).2.nodes
      = s.nodes ++ [(s.nextId, c.template)] ∧
    (∀ p ∈ pins, ∀ n, s.getNode p.node = some n →
      (pin_in_compat n &&& c.mask ≠ 0 →
        connectionsInto (showDroppedWireMenuIn pins (some c) s).2 p
          = [⟨⟨s.nextId, 0⟩, p⟩]) ∧
      (pin_in_compat n &&& c.mask = 0 →
        connectionsInto (showDroppedWireMenuIn pins (some c) s).2 p
          = connectionsInto s p)) ∧
    (showDroppedWireMenuIn pins (some c) s).1
      ≠ InMenuOutcome.panicMissingNode := by
  obtain ⟨s2, hs2, hstate⟩ := showDroppedWireMenuIn_click pins c s types ht hoff
  have hinsnodes : (s.insertNode c.template).2.nodes
      = s.nodes ++ [(s.nextId, c.template)] := rfl
  have hloopn := reconnectLoop_nodes ⟨s.nextId, 0⟩ c.mask pins _ _ hs2
  refine ⟨?_, ?_, ?_, ?_, ?_, ?_⟩
  · unfold showDroppedWireMenuIn
    rw [ht]
  · rw [allSrcTypes_and s PIN_NUM pins 0 types ht]
    simp
  · rw [allSrcTypes_and s PIN_STR pins 0 types ht]
    simp
  · rw [hstate]
    show s2.nodes = _
    rw [hloopn.1, hinsnodes]
  · intro p hp n hgn
    constructor
    · intro hcompat
      rw [hstate]
      show connectionsInto s2 p = _
      exact reconnectLoop_target ⟨s.nextId, 0⟩ c.mask pins _ s2 p n hs2 hp
        (getNode_insertNode_of_some s c.template hgn) hcompat
    · intro hz
      rw [hstate]
      show connectionsInto s2 p = _
      have hcond : ∀ r ∈ pins, r = p →
          ∃ n2, (s.insertNode c.template).2.getNode r.node = some n2 ∧
            pin_in_compat n2 &&& c.mask = 0 := by
        intro r hr hrq
        subst hrq
        exact ⟨n, getNode_insertNode_of_some s c.template hgn, hz⟩
      rw [reconnectLoop_frame ⟨s.nextId, 0⟩ c.mask pins _ s2 p hs2 hcond]
      unfold connectionsInto
      rw [Snarl.insertNode_wires]
  · rw [hstate]
    simp

/-- Graph with two Sink nodes (ids 0 and 1) and no wires. -/
def twoSinksGraph : Snarl := ⟨[(0, .Sink), (1, .Sink)], [], 2⟩

/-- Witness for C3: dragging both sink inputs, releasing on canvas and
choosing String creates one StringSource (id 2) and wires both inputs to
its output. -/
theorem c3_in_menu_witness :
    ([⟨0, 0⟩, ⟨1, 0⟩] : List InPinId) ≠ [] ∧
    allSrcTypes twoSinksGraph 0 [⟨0, 0⟩, ⟨1, 0⟩] = some 3 ∧
    (3 : Nat) &&& SourceChoice.string.mask ≠ 0 ∧
    ((showDroppedWireMenuIn [⟨0, 0⟩, ⟨1, 0⟩] none twoSinksGraph).1
        = InMenuOutcome.shown (decide ((3 : Nat) &&& PIN_NUM ≠ 0))
            (decide ((3 : Nat) &&& PIN_STR ≠ 0)) ∧
      (((3 : Nat) &&& PIN_NUM ≠ 0) ↔
        ∃ p ∈ ([⟨0, 0⟩, ⟨1, 0⟩] : List InPinId), ∃ n,
          twoSinksGraph.getNode p.node = some n ∧
            pin_in_compat n &&& PIN_NUM ≠ 0) ∧
      (((3 : Nat) &&& PIN_STR ≠ 0) ↔
        ∃ p ∈ ([⟨0, 0⟩, ⟨1, 0⟩] : List InPinId), ∃ n,
          twoSinksGraph.getNode p.node = some n ∧
            pin_in_compat n &&& PIN_STR ≠ 0) ∧
      (showDroppedWireMenuIn [⟨0, 0⟩, ⟨1, 0⟩]
          (some SourceChoice.string) twoSinksGraph).2.nodes
        = twoSinksGraph.nodes
            ++ [(twoSinksGraph.nextId, SourceChoice.string.template)] ∧
      (∀ p ∈ ([⟨0, 0⟩, ⟨1, 0⟩] : List InPinId), ∀ n,
        twoSinksGraph.getNode p.node = some n →
        (pin_in_compat n &&& SourceChoice.string.mask ≠ 0 →
          connectionsInto (showDroppedWireMenuIn [⟨0, 0⟩, ⟨1, 0⟩]
              (some SourceChoice.string) twoSinksGraph).2 p
            = [⟨⟨twoSinksGraph.nextId, 0⟩, p⟩]) ∧
        (pin_in_compat n &&& SourceChoice.string.mask = 0 →
          connectionsInto (showDroppedWireMenuIn [⟨0, 0⟩, ⟨1, 0⟩]
              (some SourceChoice.string) twoSinksGraph).2 p
            = connectionsInto twoSinksGraph p)) ∧
      (showDroppedWireMenuIn [⟨0, 0⟩, ⟨1, 0⟩]
          (some SourceChoice.string) twoSinksGraph).1
        ≠ InMenuOutcome.panicMissingNode) :=
  ⟨by decide, by decide, by decide,
    c3_in_menu twoSinksGraph [⟨0, 0⟩, ⟨1, 0⟩] SourceChoice.string 3
      (by decide) (by decide) (by decide)⟩

/-- Every wire added by the dropped-wire-from-output menu joins two pins
whose masks intersect. -/
theorem outMenu_new_wires (s s' : Snarl) (pins : List OutPinId)
    (click : Bool) (o : OutMenuOutcome) (hfresh : s.Fresh)
    (h : showDroppedWireMenuOut pins click s = (o, s')) :
    ∀ w ∈ s'.wires, w ∈ s.wires ∨
      ∃ a b, s'.getNode w.out.node = some a ∧
        s'.getNode w.inp.node = some b ∧
        pin_out_compat a &&& pin_in_compat b ≠ 0 := by
  match pins with
  | [] =>
    simp only [showDroppedWireMenuOut] at h
    injection h with h1 h2
    subst h2
    exact fun w hw => Or.inl hw
  | p :: rest =>
    simp only [showDroppedWireMenuOut] at h
    by_cases hr : rest ≠ []
    · rw [if_pos hr] at h
      injection h with h1 h2
      subst h2
      exact fun w hw => Or.inl hw
    · rw [if_neg hr] at h
      cases hg : s.getNode p.node with
      | none =>
        rw [hg] at h
        injection h with h1 h2
        subst h2
        exact fun w hw => Or.inl hw
      | some srcNode =>
        simp only [hg] at h
        by_cases hm : pin_out_compat srcNode &&& PIN_SINK ≠ 0
        · rw [if_pos hm] at h
          by_cases hc : click = true
          · rw [if_pos hc] at h
            injection h with h1 h2
            subst h2
            intro w hw
            rcases mem_connect_wires hw with hw2 | he
            · rw [Snarl.insertNode_wires] at hw2
              exact Or.inl hw2
            · subst he
              right
              refine ⟨srcNode, EditorNode.Sink, ?_, ?_, ?_⟩
              · rw [Snarl.getNode_eq_of_nodes_eq (Snarl.connect_nodes _ _ _)]
                exact getNode_insertNode_of_some s _ hg
              · rw [Snarl.getNode_eq_of_nodes_eq (Snarl.connect_nodes _ _ _)]
                exact getNode_insertNode_fresh s _ hfresh.1
              · simpa [pin_in_compat] using hm
          · rw [if_neg hc] at h
            injection h with h1 h2
            subst h2
            exact fun w hw => Or.inl hw
        · rw [if_neg hm] at h
          injection h with h1 h2
          subst h2
          exact fun w hw => Or.inl hw

/-- Every wire added by the dropped-wire-from-inputs menu joins two pins
whose masks intersect. -/
theorem inMenu_new_wires (s s' : Snarl) (pins : List InPinId)
    (click : Option SourceChoice) (o : InMenuOutcome) (hfresh : s.Fresh)
    (h : showDroppedWireMenuIn pins click s = (o, s')) :
    ∀ w ∈ s'.wires, w ∈ s.wires ∨
      ∃ a b, s'.getNode w.out.node = some a ∧
        s'.getNode w.inp.node = some b ∧
        pin_out_compat a &&& pin_in_compat b ≠ 0 := by
  cases hty : allSrcTypes s 0 pins with
  | none =>
    have hv : showDroppedWireMenuIn pins click s
        = (InMenuOutcome.panicMissingNode, s) := by
      unfold showDroppedWireMenuIn
      rw [hty]
    rw [hv] at h
    injection h with h1 h2
    subst h2
    exact fun w hw => Or.inl hw
  | some types =>
    cases click with
    | none =>
      have hv : showDroppedWireMenuIn pins none s
          = (InMenuOutcome.shown (decide (types &&& PIN_NUM ≠ 0))
              (decide (types &&& PIN_STR ≠ 0)), s) := by
        unfold showDroppedWireMenuIn
        rw [hty]
      rw [hv] at h
      injection h with h1 h2
      subst h2
      exact fun w hw => Or.inl hw
    | some c =>
      by_cases hoff : types &&& c.mask ≠ 0
      · obtain ⟨s2, hs2, hstate⟩ :=
          showDroppedWireMenuIn_click pins c s types hty hoff
        rw [hstate] at h
        injection h with h1 h2
        subst h2
        intro w hw
        have hnodes2 := reconnectLoop_nodes ⟨s.nextId, 0⟩ c.mask pins _ _ hs2
        rcases reconnectLoop_wires_subset ⟨s.nextId, 0⟩ c.mask pins _ _ hs2
            w hw with hmem | ⟨hod, n, hgn, hbn⟩
        · rw [Snarl.insertNode_wires] at hmem
          exact Or.inl hmem
        · right
          refine ⟨c.template, n, ?_, ?_, ?_⟩
          · rw [hod]
            rw [Snarl.getNode_eq_of_nodes_eq hnodes2.1]
            exact getNode_insertNode_fresh s _ hfresh.1
          · rw [Snarl.getNode_eq_of_nodes_eq hnodes2.1]
            exact hgn
          · have hpt : pin_out_compat c.template = c.mask := by
              cases c <;> rfl
            rw [hpt, Nat.and_comm]
            exact hbn
      · have hv : showDroppedWireMenuIn pins (some c) s
            = (InMenuOutcome.shown (decide (types &&& PIN_NUM ≠ 0))
                (decide (types &&& PIN_STR ≠ 0)), s) := by
          unfold showDroppedWireMenuIn
          simp only [hty]
          rw [if_neg hoff]
        rw [hv] at h
        injection h with h1 h2
        subst h2
        exact fun w hw => Or.inl hw

/-- C2 counterexample: a connect between two pins with empty mask
intersection (a Number output into a pin on another Number node) does NOT
fail with an InvalidPin error — the code has no error channel at all; the
call returns silently, leaving the graph untouched. -/
theorem c2_counterexample :
    pin_out_compat (EditorNode.Number 1) &&& pin_in_compat (EditorNode.Number 2)
      = 0 ∧
    twoSourcesGraph.getNode 0 = some (EditorNode.Number 1) ∧
    twoSourcesGraph.getNode 1 = some (EditorNode.Number 2) ∧
    EditorViewer.connect ⟨0, 0⟩ ⟨1, 0⟩ twoSourcesGraph
      = (ConnectOutcome.ignored, twoSourcesGraph) := by decide

/-- C2 (amended): for every pair of pins whose compatibility masks have
empty intersection, a connect between them never creates the connection
and never mutates the graph — it is a silent no-op when the destination
node lacks inputs and the internal unreachable panic when the source node
is a Sink, with no InvalidPin error value anywhere — and no menu
(drag-release target or dropped-wire menu) ever creates such a pairing:
every wire a menu adds joins two pins with intersecting masks. -/
theorem c2_incompatible_pins :
    (∀ (s : Snarl) (f : OutPinId) (t : InPinId) (a b : EditorNode),
      s.getNode f.node = some a → s.getNode t.node = some b →
      pin_out_compat a &&& pin_in_compat b = 0 →
      (EditorViewer.connect f t s).1 ≠ ConnectOutcome.connected ∧
      (EditorViewer.connect f t s).2 = s) ∧
    (∀ (s s' : Snarl) (pins : List OutPinId) (click : Bool)
      (o : OutMenuOutcome), s.Fresh →
      showDroppedWireMenuOut pins click s = (o, s') →
      ∀ w ∈ s'.wires, w ∈ s.wires ∨
        ∃ a b, s'.getNode w.out.node = some a ∧
          s'.getNode w.inp.node = some b ∧
          pin_out_compat a &&& pin_in_compat b ≠ 0) ∧
    (∀ (s s' : Snarl) (pins : List InPinId) (click : Option SourceChoice)
      (o : InMenuOutcome), s.Fresh →
      showDroppedWireMenuIn pins click s = (o, s') →
      ∀ w ∈ s'.wires, w ∈ s.wires ∨
        ∃ a b, s'.getNode w.out.node = some a ∧
          s'.getNode w.inp.node = some b ∧
          pin_out_compat a &&& pin_in_compat b ≠ 0) := by
  refine ⟨?_, ?_, ?_⟩
  · intro s f t a b hf ht hmask
    have hnc : (EditorViewer.connect f t s).1 ≠ ConnectOutcome.connected := by
      unfold EditorViewer.connect
      rw [hf, ht]
      cases a with
      | Sink => cases b <;> simp
      | Number v =>
        cases b with
        | Sink =>
          simp [pin_out_compat, pin_in_compat, PIN_NUM, PIN_STR, PIN_SINK]
            at hmask
        | Number v2 => simp
        | String v2 => simp
      | String v =>
        cases b with
        | Sink =>
          simp [pin_out_compat, pin_in_compat, PIN_NUM, PIN_STR, PIN_SINK]
            at hmask
        | Number v2 => simp
        | String v2 => simp
    exact ⟨hnc, viewer_connect_noop f t s hnc⟩
  · exact fun s s' pins click o hfr h => outMenu_new_wires s s' pins click o hfr h
  · exact fun s s' pins click o hfr h => inMenu_new_wires s s' pins click o hfr h

/-- Witness for the amended C2 at a concrete mask-incompatible pair. -/
theorem c2_incompatible_pins_witness :
    twoSourcesGraph.getNode 0 = some (EditorNode.Number 1) ∧
    twoSourcesGraph.getNode 1 = some (EditorNode.Number 2) ∧
    pin_out_compat (EditorNode.Number 1) &&& pin_in_compat (EditorNode.Number 2)
      = 0 ∧
    ((EditorViewer.connect ⟨0, 0⟩ ⟨1, 0⟩ twoSourcesGraph).1
        ≠ ConnectOutcome.connected ∧
      (EditorViewer.connect ⟨0, 0⟩ ⟨1, 0⟩ twoSourcesGraph).2
        = twoSourcesGraph) :=
  ⟨by decide, by decide, by decide,
    c2_incompatible_pins.1 twoSourcesGraph ⟨0, 0⟩ ⟨1, 0⟩
      (EditorNode.Number 1) (EditorNode.Number 2)
      (by decide) (by decide) (by decide)⟩

/-- Node serialization round-trips. -/
theorem decodeNode_encodeNode (n : EditorNode) :
    decodeNode (encodeNode n) = some n := by
  cases n <;> rfl

/-- Wire serialization round-trips. -/
theorem decodeWire_encodeWire (w : Wire) :
    decodeWire (encodeWire w) = some w := by
  cases w with
  | mk o i => cases o; cases i; rfl

/-- Node-table entry serialization round-trips. -/
theorem decodeEntry_encode (p : Nat × EditorNode) :
    decodeEntry (SValue.vlist [.vnat p.1, encodeNode p.2]) = some p := by
  simp [decodeEntry, decodeNode_encodeNode]

/-- A pointwise inverse lifts through `map` and `mapM` over `Option`. -/
theorem mapM_roundtrip {α β : Type} (f : β → Option α) (g : α → β)
    (h : ∀ x, f (g x) = some x) :
    ∀ l : List α, (l.map g).mapM f = some l
  | [] => rfl
  | x :: xs => by
    rw [List.map_cons, List.mapM_cons, h x, mapM_roundtrip f g h xs]
    rfl

/-- Graph serialization round-trips exactly. -/
theorem decodeSnarl_encodeSnarl (s : Snarl) :
    decodeSnarl (encodeSnarl s) = some s := by
  have h1 : (s.nodes.map
      (fun p => SValue.vlist [.vnat p.1, encodeNode p.2])).mapM decodeEntry
        = some s.nodes :=
    mapM_roundtrip decodeEntry _ decodeEntry_encode s.nodes
  have h2 : (s.wires.map encodeWire).mapM decodeWire = some s.wires :=
    mapM_roundtrip decodeWire encodeWire decodeWire_encodeWire s.wires
  unfold encodeSnarl decodeSnarl
  show (((s.nodes.map
      (fun p => SValue.vlist [SValue.vnat p.1, encodeNode p.2])).mapM
        decodeEntry).bind
    fun nodes => (((s.wires.map encodeWire).mapM decodeWire).bind
      fun wires => some ⟨nodes, wires, s.nextId⟩)) = some s
  rw [h1, h2]
  rfl

/-- C8: serializing a graph that contains at least one node of each
variant and at least one connection, then deserializing, yields a graph
with an identical node id to variant/payload mapping and an identical
connection set, payload values preserved exactly. -/
theorem c8_roundtrip (G : Snarl)
    (h1 : ∃ p ∈ G.nodes, p.2 = EditorNode.Sink)
    (h2 : ∃ p ∈ G.nodes, ∃ v, p.2 = EditorNode.Number v)
    (h3 : ∃ p ∈ G.nodes, ∃ v, p.2 = EditorNode.String v)
    (h4 : G.wires ≠ []) :
    ∃ G2, decodeSnarl (encodeSnarl G) = some G2 ∧
      G2.nodes = G.nodes ∧ G2.wires = G.wires :=
  ⟨G, decodeSnarl_encodeSnarl G, rfl, rfl⟩

/-- Graph with one node of each variant and one connection. -/
def fullGraph : Snarl :=
  ⟨[(0, .Number 3), (1, .Sink), (2, .String default)],
   [⟨⟨0, 0⟩, ⟨1, 0⟩⟩], 3⟩

/-- Witness for C8 on a graph holding all three variants and a wire. -/
theorem c8_roundtrip_witness :
    (∃ p ∈ fullGraph.nodes, p.2 = EditorNode.Sink) ∧
    (∃ p ∈ fullGraph.nodes, ∃ v, p.2 = EditorNode.Number v) ∧
    (∃ p ∈ fullGraph.nodes, ∃ v, p.2 = EditorNode.String v) ∧
    fullGraph.wires ≠ [] ∧
    (∃ G2, decodeSnarl (encodeSnarl fullGraph) = some G2 ∧
      G2.nodes = fullGraph.nodes ∧ G2.wires = fullGraph.wires) :=
  ⟨⟨(1, .Sink), by decide, rfl⟩,
   ⟨(0, .Number 3), by decide, 3, rfl⟩,
   ⟨(2, .String default), by decide, default, rfl⟩,
   by decide,
   c8_roundtrip fullGraph ⟨(1, .Sink), by decide, rfl⟩
     ⟨(0, .Number 3), by decide, 3, rfl⟩
     ⟨(2, .String default), by decide, default, rfl⟩ (by decide)⟩
